import Mathlib

/-!
# Verification of the envbee SDK client against its specification

Shallow embedding of `src/envbee_sdk/main.py` and `src/envbee_sdk/utils.py`.

Modelling conventions:

* Byte strings are `List Nat` (each element a byte value).
* Python strings are Lean `String`; `strBytes` is UTF-8 encoding.
* The external hash primitives `hashlib.md5` and HMAC-SHA256 (`hmac.new`
  with `digestmod=hashlib.sha256`) are external library collaborators; they
  are modelled as function parameters `MD5 : List Nat → List Nat` and
  `HMACSHA256 : List Nat → List Nat → List Nat` (key, then message).  The
  streaming `hmac.update` interface is modelled by accumulating the bytes
  fed so far; `hexdigest` applies the keyed hash to the accumulated bytes,
  which is the semantics of the incremental HMAC interface.
* The wall clock `time.time()` is an external input: the millisecond
  timestamp is a parameter `tMs : Nat`.
* JSON-decoded Python values are `JsonVal`; Python `None` and decoded JSON
  `null` are the same Python object, represented by `JsonVal.null`.
* The HTTP transport (`requests.get`) is an external collaborator whose
  behaviour for the single request of a call is an oracle value
  `TransportOutcome`.
* The on-disk cache engine (`diskcache.Cache`) is an external collaborator:
  its state is an insertion-ordered association list keyed by Python
  values, and engine failures (exceptions raised by the engine, all caught
  by the code) are oracle booleans passed to each operation.
-/

/-- Hex digit character for a value `0 ≤ n < 16`, lowercase as produced by
Python's `hexdigest`. -/
def hexDigitChar (n : Nat) : Char :=
  if n < 10 then Char.ofNat (48 + n) else Char.ofNat (87 + n)

/-- The two hex characters of one byte. -/
def byteToHex (b : Nat) : List Char :=
  [hexDigitChar (b / 16 % 16), hexDigitChar (b % 16)]

/-- Hex string of a byte string, as Python's `hexdigest` renders a digest. -/
def bytesToHex (bs : List Nat) : String :=
  ⟨bs.flatMap byteToHex⟩

/-- UTF-8 bytes of a string, modelling Python's `str.encode("utf-8")`. -/
def strBytes (s : String) : List Nat :=
  s.toUTF8.toList.map (fun b => b.toNat)

/-- Client state, from `Envbee.__init__` in `main.py`: the three fields the
constructor stores. -/
structure Envbee where
  api_key : String
  api_secret : List Nat
  base_url : String

/-- The class attribute `Envbee.__BASE_URL`. -/
def defaultBaseUrl : String := "https://api.envbee.dev"

/-- Constructor `Envbee.__init__`: `self.__base_url = base_url or self.__BASE_URL`.
Python `or` takes the default when `base_url` is `None` or falsy (the empty
string). -/
def mkEnvbee (api_key : String) (api_secret : List Nat)
    (base_url : Option String) : Envbee :=
  { api_key := api_key
    api_secret := api_secret
    base_url :=
      match base_url with
      | some s => if s = "" then defaultBaseUrl else s
      | none => defaultBaseUrl }

/-- Method `Envbee._generate_hmac_header`, with the hash primitives and the clock
as parameters.  The code feeds the HMAC object, in order: the decimal
timestamp string, the bytes `b"GET"`, the URL path, and the hex MD5 digest
of `json.dumps({})` (the two bytes `"{}"`); it then formats
`"HMAC %s:%s" % (current_time, hexdigest)`. -/
def Envbee.generate_hmac_header
    (HMACSHA256 : List Nat → List Nat → List Nat) (MD5 : List Nat → List Nat)
    (e : Envbee) (tMs : Nat) (url_path : String) : String :=
  let current_time : String := toString tMs
  let buf0 : List Nat := []
  let buf1 := buf0 ++ strBytes current_time
  let buf2 := buf1 ++ strBytes "GET"
  let buf3 := buf2 ++ strBytes url_path
  let content : List Nat := strBytes "{}"
  let content_hash : List Nat := MD5 content
  let buf4 := buf3 ++ strBytes (bytesToHex content_hash)
  "HMAC " ++ current_time ++ ":" ++ bytesToHex (HMACSHA256 e.api_secret buf4)

/-! ## Query strings: `src/envbee_sdk/utils.py`

`add_querystring` is built on `urllib.parse`.  The stdlib collaborators are
modelled for the URLs this client manipulates: plain paths with an optional
query component, no scheme, netloc, path-params (`;`), fragment (`#`) or
percent/plus escapes.  `parse_qs` is modelled with its default settings
(blank values dropped, separator `&`), `urlencode` with `doseq=True`, and
Python dicts as insertion-ordered association lists. -/

/-- A value of the Python query dict: `parse_qs` produces lists of strings,
the caller's `params` dict holds integers (`offset`/`limit`). -/
inductive QVal where
  | strs (xs : List String)
  | intV (n : Int)
  deriving DecidableEq, Repr

/-- A Python dict with string keys, in insertion order. -/
abbrev QDict := List (String × QVal)

/-- Dict lookup (`k in d` / `d[k]`): first entry with the given key. -/
def lookupKey {α : Type} : List (String × α) → String → Option α
  | [], _ => none
  | (k, v) :: rest, key => if k = key then some v else lookupKey rest key

/-- Replace the value stored at `k`, keeping the entry's position
(Python `d[k] = v` on an existing key). -/
def replaceKey {α : Type} (d : List (String × α)) (k : String) (v : α) :
    List (String × α) :=
  d.map (fun kv => if kv.1 = k then (k, v) else kv)

/-- Python `s.split(sep, 1)` when the separator occurs: the part before the
first occurrence and the rest; `none` when the separator is absent. -/
def splitFirst (sep : Char) : List Char → Option (List Char × List Char)
  | [] => none
  | c :: cs =>
    if c = sep then some ([], cs)
    else
      match splitFirst sep cs with
      | none => none
      | some (a, b) => some (c :: a, b)

/-- One chunk of `parse_qsl`: chunks without `=` and chunks with an empty
value are dropped (`keep_blank_values=False`); otherwise the pair before
and after the first `=`. -/
def parsePair (chunk : List Char) : Option (String × String) :=
  match splitFirst '=' chunk with
  | none => none
  | some (k, v) => if v.isEmpty then none else some (⟨k⟩, ⟨v⟩)

/-- Model of `urllib.parse.parse_qsl` with default settings (no percent or plus
escapes in scope): Python's `qs.split("&")` is `List.splitOn`, then each
chunk is parsed or dropped. -/
def parse_qsl (qs : String) : List (String × String) :=
  (qs.data.splitOn '&').filterMap parsePair

/-- One step of `parse_qs`'s dict construction: append the value to the
key's list, or start a new entry. -/
def qslAdd (d : QDict) (k v : String) : QDict :=
  match lookupKey d k with
  | some (QVal.strs xs) => replaceKey d k (QVal.strs (xs ++ [v]))
  | some (QVal.intV _) => replaceKey d k (QVal.strs [v])
  | none => d ++ [(k, QVal.strs [v])]

/-- Model of `urllib.parse.parse_qs` as a dict: group the pairs of `parse_qsl` by
key, in first-occurrence order. -/
def qslToDict (l : List (String × String)) : QDict :=
  l.foldl (fun d kv => qslAdd d kv.1 kv.2) []

/-- Python `dict.update` for one key. -/
def updateOne (d : QDict) (k : String) (v : QVal) : QDict :=
  match lookupKey d k with
  | some _ => replaceKey d k v
  | none => d ++ [(k, v)]

/-- Python `query.update(params)`: existing keys are overwritten in place,
new keys are appended in `params` order. -/
def dictUpdate (d ps : QDict) : QDict :=
  ps.foldl (fun acc kv => updateOne acc kv.1 kv.2) d

/-- The characters of one `key=value` chunk emitted by `urlencode`. -/
def encodePart (k v : String) : List Char :=
  k.data ++ '=' :: v.data

/-- The chunks `urlencode(..., doseq=True)` emits for one dict entry: one
per element for a list value, one with `str(n)` for an integer value. -/
def qvalParts : String × QVal → List (List Char)
  | (k, QVal.strs xs) => xs.map (encodePart k)
  | (k, QVal.intV n) => [encodePart k (toString n)]

/-- Model of `urllib.parse.urlencode(query, doseq=True)`: the chunks joined
with `&`. -/
def urlencode (d : QDict) : String :=
  ⟨List.intercalate ['&'] (d.flatMap qvalParts)⟩

/-- Model of `urllib.parse.urlparse`, restricted to path-plus-query URLs: the part
before the first `?` and the part after it. -/
def urlparseQ (url : String) : String × String :=
  match splitFirst '?' url.data with
  | none => (url, "")
  | some (p, q) => (⟨p⟩, ⟨q⟩)

/-- Model of `urllib.parse.urlunparse` on a path and query: the query is appended
after `?` only when non-empty. -/
def urlunparseQ (path query : String) : String :=
  if query = "" then path else path ++ "?" ++ query

/-- Function `add_querystring` from `utils.py`: parse the URL, parse its query
string into a dict, `update` it with `params`, re-encode. -/
def add_querystring (url : String) (params : QDict) : String :=
  let url_parts := urlparseQ url
  let query := qslToDict (parse_qsl url_parts.2)
  let query' := dictUpdate query params
  urlunparseQ url_parts.1 (urlencode query')

/-- The `params` dict built by `Envbee.get_variables`: `if offset:` and
`if limit:` are Python truthiness tests, so `None` and `0` are both
omitted. -/
def get_variables_params (offset limit : Option Int) : QDict :=
  let params : QDict := []
  let params :=
    match offset with
    | some n => if n = 0 then params else params ++ [("offset", QVal.intV n)]
    | none => params
  match limit with
  | some n => if n = 0 then params else params ++ [("limit", QVal.intV n)]
  | none => params

/-- The request path `Envbee.get_variables` builds before signing. -/
def get_variables_url_path (offset limit : Option Int) : String :=
  add_querystring "/variables" (get_variables_params offset limit)

/-! ## Derived views of the query dict, used to state theorems -/

/-- The strings `urlencode(..., doseq=True)` renders for one dict value:
each element of a list value, `str(n)` for an integer value. -/
def qvalVals : QVal → List String
  | QVal.strs xs => xs
  | QVal.intV n => [toString n]

/-- The `key=value` pairs a dict denotes, in encoding order. -/
def flatPairs (d : QDict) : List (String × String) :=
  d.flatMap (fun kv => (qvalVals kv.2).map (fun v => (kv.1, v)))

/-- A key that query-string encoding transports verbatim: free of the
separator characters. -/
def plainKeyStr (k : String) : Prop := '&' ∉ k.data ∧ '=' ∉ k.data

/-- A value string that query-string encoding transports verbatim and
`parse_qs` does not drop: non-blank and free of the chunk separator. -/
def plainValStr (x : String) : Prop := x.data ≠ [] ∧ '&' ∉ x.data

/-- All rendered values of a dict value are plain. -/
def plainQVal (v : QVal) : Prop := ∀ x ∈ qvalVals v, plainValStr x

/-- Well-formedness of a query dict for round-tripping: plain keys, plain
rendered values, and at least one rendered value per key. -/
def wfParams (ps : QDict) : Prop :=
  ∀ kv ∈ ps, plainKeyStr kv.1 ∧ plainQVal kv.2 ∧ qvalVals kv.2 ≠ []

/-! ## JSON-decoded Python values -/

/-- A Python value produced by `response.json()`.  Decoded JSON `null` and
Python `None` are the same object, `JsonVal.null`. -/
inductive JsonVal where
  | str (s : String)
  | num (n : Int)
  | boolV (b : Bool)
  | null
  | arr (xs : List JsonVal)
  | obj (fields : List (String × JsonVal))

mutual

/-- Python `==` on JSON-decoded values. -/
def JsonVal.beq : JsonVal → JsonVal → Bool
  | JsonVal.str a, JsonVal.str b => a = b
  | JsonVal.num a, JsonVal.num b => a = b
  | JsonVal.boolV a, JsonVal.boolV b => a = b
  | JsonVal.null, JsonVal.null => true
  | JsonVal.arr xs, JsonVal.arr ys => JsonVal.beqList xs ys
  | JsonVal.obj fs, JsonVal.obj gs => JsonVal.beqFields fs gs
  | _, _ => false

/-- Elementwise `==` on lists of values. -/
def JsonVal.beqList : List JsonVal → List JsonVal → Bool
  | [], [] => true
  | x :: xs, y :: ys => JsonVal.beq x y && JsonVal.beqList xs ys
  | _, _ => false

/-- Elementwise `==` on object field lists. -/
def JsonVal.beqFields :
    List (String × JsonVal) → List (String × JsonVal) → Bool
  | [], [] => true
  | (k, v) :: fs, (l, w) :: gs =>
      k = l && JsonVal.beq v w && JsonVal.beqFields fs gs
  | _, _ => false

end

/-- Python `value.get(key)` on a decoded value: `none` models the
`AttributeError` raised when the value is not a dict; a missing key yields
Python `None`. -/
def JsonVal.getOpt : JsonVal → String → Option JsonVal
  | JsonVal.obj fs, key => some ((lookupKey fs key).getD JsonVal.null)
  | _, _ => none

/-- Python `value.get(key, default)`: `none` models the `AttributeError`
raised when the value is not a dict. -/
def JsonVal.getDefault : JsonVal → String → JsonVal → Option JsonVal
  | JsonVal.obj fs, key, dflt => some ((lookupKey fs key).getD dflt)
  | _, _, _ => none

/-- Python `value[key]`: `none` models the exception raised when the value
is not a dict (`TypeError`) or the key is missing (`KeyError`). -/
def JsonVal.subscript : JsonVal → String → Option JsonVal
  | JsonVal.obj fs, key => lookupKey fs key
  | _, _ => none

/-- Python `for v in data`: the sequence iterated, or `none` for the
`TypeError` on non-iterables.  Strings iterate their characters as
one-character strings, dicts iterate their keys. -/
def pyIter : JsonVal → Option (List JsonVal)
  | JsonVal.arr xs => some xs
  | JsonVal.str s => some (s.data.map (fun c => JsonVal.str ⟨[c]⟩))
  | JsonVal.obj fs => some (fs.map (fun kv => JsonVal.str kv.1))
  | _ => none

/-! ## The local cache collaborator (`diskcache.Cache`) -/

/-- Cache contents: key/value pairs of Python objects in insertion order.
A stored Python `None` is `JsonVal.null`. -/
abbrev CacheState := List (JsonVal × JsonVal)

/-- Model of `reference.get(key)`: the stored value of the first (only) entry whose
key compares `==`, if any. -/
def lookupCache : CacheState → JsonVal → Option JsonVal
  | [], _ => none
  | (k, v) :: rest, key =>
      if JsonVal.beq k key then some v else lookupCache rest key

/-- Model of `reference.set(key, value)`: overwrite the entry in place when the key
exists, append otherwise. -/
def cacheSet (st : CacheState) (key value : JsonVal) : CacheState :=
  match lookupCache st key with
  | some _ =>
      st.map (fun kv => if JsonVal.beq kv.1 key then (kv.1, value) else kv)
  | none => st ++ [(key, value)]

/-- One observable interaction with the cache engine. -/
inductive CacheEvent where
  | setE (key value : JsonVal)
  | getE (key : JsonVal)
  | iterE

/-- Whether an event is a cache write. -/
def CacheEvent.isWrite : CacheEvent → Bool
  | CacheEvent.setE _ _ => true
  | _ => false

/-- Method `Envbee._cache_variable`: one best-effort `set`; an engine failure
(`engineFail`) is caught and logged, leaving the state unchanged.  Returns
the new state and the recorded interaction. -/
def cache_variable (engineFail : Bool) (st : CacheState)
    (variable_name variable_value : JsonVal) : CacheState × List CacheEvent :=
  ((if engineFail then st else cacheSet st variable_name variable_value),
    [CacheEvent.setE variable_name variable_value])

/-- Method `Envbee._get_variable_from_cache`: `reference.get(name)`; both an
absent key and an engine failure (caught, function falls through to its
implicit `return None`) yield Python `None`. -/
def get_variable_from_cache (engineFail : Bool) (st : CacheState)
    (variable_name : String) : JsonVal :=
  if engineFail then JsonVal.null
  else (lookupCache st (JsonVal.str variable_name)).getD JsonVal.null

/-- Method `Envbee._get_variables_from_cache`: the list
`[{"name": k, "value": reference[k]} for k in list(reference)]`; on an
engine failure the exception is caught and the function returns Python
`None` (its implicit return), not a list. -/
def get_variables_from_cache (engineFail : Bool) (st : CacheState) : JsonVal :=
  if engineFail then JsonVal.null
  else JsonVal.arr (st.map (fun kv =>
    JsonVal.obj [("name", kv.1), ("value", kv.2)]))

/-! ## The transport boundary (`Envbee._send_request`) -/

/-- Modelled from the spec: the module
`envbee_sdk.exceptions.envbee_exceptions` imported by `main.py` is not part
of the sources; the spec's error taxonomy gives
`RequestError {statusCode, message}` for non-200 responses and
`RequestTimeoutError {message}` for transport timeouts.  `unexpected`
stands for any other exception the code re-raises as-is (network errors,
JSON parse errors). -/
inductive SendError where
  | requestError (statusCode : Nat) (message : String)
  | requestTimeout (message : String)
  | unexpected

/-- The transport collaborator's behaviour for the single request of one
call: an HTTP response (with its status, body text, and decoded JSON body —
`none` when `response.json()` would raise), a timeout, or another network
failure. -/
inductive TransportOutcome where
  | response (status : Nat) (text : String) (jsonBody : Option JsonVal)
  | timeout
  | netError

/-- Method `Envbee._send_request`: return the decoded JSON on a 200, raise
`RequestError` on any other status, `RequestTimeoutError` on a transport
timeout, and re-raise anything else (including a `response.json()` parse
failure on a 200). -/
def send_request (url : String) (tmo : Nat) (out : TransportOutcome) :
    Except SendError JsonVal :=
  match out with
  | TransportOutcome.response status text jsonBody =>
      if status = 200 then
        match jsonBody with
        | some j => Except.ok j
        | none => Except.error SendError.unexpected
      else
        Except.error (SendError.requestError status
          ("Failed request: " ++ text))
  | TransportOutcome.timeout =>
      Except.error (SendError.requestTimeout
        ("Request to " ++ url ++ " timed out after " ++ toString tmo ++
          " seconds"))
  | TransportOutcome.netError => Except.error SendError.unexpected

/-! ## The client facade

The authentication header computed before the request does not influence
the modelled transport outcome, so the facade operations below take the
outcome oracle directly; header generation is modelled separately by
`Envbee.generate_hmac_header`. -/

/-- The observable result of one `get_variable` call: the returned Python
value, the cache contents afterwards, and the cache interactions in
order. -/
structure GetVariableRun where
  ret : JsonVal
  cache : CacheState
  events : List CacheEvent

/-- Method `Envbee.get_variable`: one remote attempt; on success extract `value`,
cache it best-effort and return it; on any exception fall back to the
local cache. -/
def Envbee.get_variable (e : Envbee) (out : TransportOutcome)
    (writeFail readFail : Bool) (st : CacheState)
    (variable_name : String) : GetVariableRun :=
  let url_path := "/variables-values/" ++ variable_name
  let final_url := e.base_url ++ url_path
  match send_request final_url 2 out with
  | Except.ok value =>
      match value.getOpt "value" with
      | some v =>
          let c := cache_variable writeFail st (JsonVal.str variable_name) v
          { ret := v, cache := c.1, events := c.2 }
      | none =>
          { ret := get_variable_from_cache readFail st variable_name,
            cache := st, events := [CacheEvent.getE (JsonVal.str variable_name)] }
  | Except.error _ =>
      { ret := get_variable_from_cache readFail st variable_name,
        cache := st, events := [CacheEvent.getE (JsonVal.str variable_name)] }

/-- The `for v in data: self._cache_variable(v["name"], v["value"])` loop:
processes entries left to right, threading the cache state; stops with
`false` (an exception escaping to the caller's handler) at the first entry
that is not a dict with both keys.  `writeFail i` tells whether the cache
engine fails on the `i`-th write. -/
def cache_entries (writeFail : Nat → Bool) :
    CacheState → Nat → List JsonVal → Bool × CacheState × List CacheEvent
  | st, _, [] => (true, st, [])
  | st, i, v :: rest =>
      match v.subscript "name", v.subscript "value" with
      | some nm, some vl =>
          let c := cache_variable (writeFail i) st nm vl
          let r := cache_entries writeFail c.1 (i + 1) rest
          (r.1, r.2.1, c.2 ++ r.2.2)
      | _, _ => (false, st, [])

/-- The observable result of one `get_variables` call. -/
structure GetVariablesRun where
  ret : JsonVal
  cache : CacheState
  events : List CacheEvent

/-- Method `Envbee.get_variables`: build the paginated path, one remote attempt;
on success cache every returned entry and return the fetched `data`; on
any exception (including one thrown mid-loop) fall back to enumerating the
local cache. -/
def Envbee.get_variables (e : Envbee) (out : TransportOutcome)
    (writeFail : Nat → Bool) (readFail : Bool) (st : CacheState)
    (offset limit : Option Int) : GetVariablesRun :=
  let url_path := get_variables_url_path offset limit
  let final_url := e.base_url ++ url_path
  match send_request final_url 2 out with
  | Except.ok body =>
      match body.getDefault "data" (JsonVal.arr []) with
      | some data =>
          match pyIter data with
          | some items =>
              let r := cache_entries writeFail st 0 items
              if r.1 then
                { ret := data, cache := r.2.1, events := r.2.2 }
              else
                { ret := get_variables_from_cache readFail r.2.1,
                  cache := r.2.1, events := r.2.2 ++ [CacheEvent.iterE] }
          | none =>
              { ret := get_variables_from_cache readFail st,
                cache := st, events := [CacheEvent.iterE] }
      | none =>
          { ret := get_variables_from_cache readFail st,
            cache := st, events := [CacheEvent.iterE] }
  | Except.error _ =>
      { ret := get_variables_from_cache readFail st,
        cache := st, events := [CacheEvent.iterE] }

/-! ## Theorems -/

/-- C2: the authentication header is `"HMAC {t}:{signature}"` where the
signature is the hex HMAC-SHA256, keyed by the API secret, of the
timestamp bytes, then `"GET"`, then the path bytes, then the UTF-8 bytes of
the hex MD5 digest of `"{}"`, concatenated in that order with no
separators. -/
theorem generate_hmac_header_spec
    (HMACSHA256 : List Nat → List Nat → List Nat) (MD5 : List Nat → List Nat)
    (e : Envbee) (tMs : Nat) (url_path : String) (_hpath : url_path ≠ "") :
    e.generate_hmac_header HMACSHA256 MD5 tMs url_path =
      "HMAC " ++ toString tMs ++ ":" ++
        bytesToHex (HMACSHA256 e.api_secret
          (strBytes (toString tMs) ++ strBytes "GET" ++ strBytes url_path ++
            strBytes (bytesToHex (MD5 (strBytes "{}"))))) := by
  simp [Envbee.generate_hmac_header, List.append_assoc]

/-- Witness for `generate_hmac_header_spec` at concrete inputs. -/
theorem generate_hmac_header_spec_witness :
    ("/variables" : String) ≠ "" ∧
      (mkEnvbee "k" [1, 2] none).generate_hmac_header
          (fun key msg => [(key.length + msg.length) % 256])
          (fun msg => [msg.length % 256]) 1700000000000 "/variables" =
        "HMAC " ++ toString (1700000000000 : Nat) ++ ":" ++
          bytesToHex ((fun key msg => [(key.length + msg.length) % 256])
            (mkEnvbee "k" [1, 2] none).api_secret
            (strBytes (toString (1700000000000 : Nat)) ++ strBytes "GET" ++
              strBytes "/variables" ++
              strBytes (bytesToHex ((fun msg => [msg.length % 256])
                (strBytes "{}"))))) :=
  ⟨by decide, generate_hmac_header_spec _ _ _ _ _ (by decide)⟩

/-- C8: signature generation depends only on the API secret, the path and
the timestamp: two clients agreeing on the secret produce identical headers
for the same path and timestamp, whatever their other state. -/
theorem generate_hmac_header_deterministic
    (HMACSHA256 : List Nat → List Nat → List Nat) (MD5 : List Nat → List Nat)
    (e₁ e₂ : Envbee) (hsec : e₁.api_secret = e₂.api_secret)
    (tMs : Nat) (url_path : String) :
    e₁.generate_hmac_header HMACSHA256 MD5 tMs url_path =
      e₂.generate_hmac_header HMACSHA256 MD5 tMs url_path := by
  simp [Envbee.generate_hmac_header, hsec]

/-- Witness for `generate_hmac_header_deterministic`: two clients with the
same secret but different keys and base URLs. -/
theorem generate_hmac_header_deterministic_witness :
    (mkEnvbee "key-one" [7, 8] none).api_secret =
        (mkEnvbee "key-two" [7, 8] (some "http://alt")).api_secret ∧
      (mkEnvbee "key-one" [7, 8] none).generate_hmac_header
          (fun key msg => key ++ msg) (fun msg => msg) 42 "/variables" =
        (mkEnvbee "key-two" [7, 8] (some "http://alt")).generate_hmac_header
          (fun key msg => key ++ msg) (fun msg => msg) 42 "/variables" :=
  ⟨by decide,
    generate_hmac_header_deterministic _ _ _ _ (by decide) 42 "/variables"⟩

/-- C3 (amended): `offset` and `limit` are appended to `"/variables"` as
query parameters exactly when they are provided with a truthy (non-`None`,
non-zero) value; `if offset:` / `if limit:` drop a provided `0` exactly
like an absent argument. -/
theorem get_variables_url_path_cases (o l : Int) (ho : o ≠ 0) (hl : l ≠ 0) :
    get_variables_url_path (some o) (some l) =
        "/variables?offset=" ++ toString o ++ "&limit=" ++ toString l ∧
      get_variables_url_path (some o) none =
        "/variables?offset=" ++ toString o ∧
      get_variables_url_path none (some l) =
        "/variables?limit=" ++ toString l ∧
      get_variables_url_path none none = "/variables" ∧
      get_variables_url_path (some 0) (some l) =
        "/variables?limit=" ++ toString l ∧
      get_variables_url_path (some o) (some 0) =
        "/variables?offset=" ++ toString o ∧
      get_variables_url_path (some 0) (some 0) = "/variables" ∧
      get_variables_url_path (some 0) none = "/variables" ∧
      get_variables_url_path none (some 0) = "/variables" := by
  refine ⟨?_, ?_, ?_, ?_, ?_, ?_, ?_, ?_, ?_⟩ <;>
    simp [get_variables_url_path, get_variables_params, add_querystring,
      urlparseQ, parse_qsl, splitFirst, List.splitOn, List.splitOnP_nil,
      parsePair, qslToDict, dictUpdate, updateOne, lookupKey, replaceKey,
      urlencode, qvalParts, qvalVals, encodePart, urlunparseQ,
      List.intercalate, ho, hl, String.ext_iff]

/-- C3 counterexample: `offset=0` is provided yet omitted from the request
path, refuting "appended exactly when provided". -/
theorem get_variables_url_path_zero_offset_dropped :
    get_variables_url_path (some 0) (some 5) = "/variables?limit=5" ∧
      lookupKey (parse_qsl
          (urlparseQ (get_variables_url_path (some 0) (some 5))).2)
        "offset" = none := by
  decide

/-- Witness for `get_variables_url_path_cases` at `offset=10`, `limit=5`,
the spec's example call. -/
theorem get_variables_url_path_cases_witness :
    (10 : Int) ≠ 0 ∧ (5 : Int) ≠ 0 ∧
      get_variables_url_path (some 10) (some 5) =
        "/variables?offset=" ++ toString (10 : Int) ++ "&limit=" ++
          toString (5 : Int) :=
  ⟨by decide, by decide,
    (get_variables_url_path_cases 10 5 (by decide) (by decide)).1⟩

/-- Splitting finds nothing when the separator is absent. -/
theorem splitFirst_of_not_mem {sep : Char} :
    ∀ {l : List Char}, sep ∉ l → splitFirst sep l = none
  | [], _ => rfl
  | c :: cs, h => by
    have hc : c ≠ sep := fun hc => h (hc ▸ List.mem_cons_self c cs)
    have hcs : sep ∉ cs := fun hm => h (List.mem_cons_of_mem c hm)
    simp [splitFirst, hc, splitFirst_of_not_mem hcs]

/-- Splitting cuts exactly at an explicit first separator. -/
theorem splitFirst_append {sep : Char} :
    ∀ {a : List Char}, sep ∉ a → ∀ b, splitFirst sep (a ++ sep :: b) = some (a, b)
  | [], _, b => by simp [splitFirst]
  | c :: cs, h, b => by
    have hc : c ≠ sep := fun hc => h (hc ▸ List.mem_cons_self c cs)
    have hcs : sep ∉ cs := fun hm => h (List.mem_cons_of_mem c hm)
    simp [splitFirst, hc, splitFirst_append hcs b]

/-- What a successful `splitFirst` tells about its input. -/
theorem splitFirst_eq_some {sep : Char} :
    ∀ {l a b : List Char}, splitFirst sep l = some (a, b) →
      sep ∉ a ∧ l = a ++ sep :: b := by
  intro l
  induction l with
  | nil => intro a b h; simp [splitFirst] at h
  | cons c cs ih =>
    intro a b h
    by_cases hc : c = sep
    · simp [splitFirst, hc] at h
      obtain ⟨ha, hb⟩ := h
      subst ha; subst hb; subst hc
      exact ⟨List.not_mem_nil _, rfl⟩
    · simp [splitFirst, hc] at h
      rcases hr : splitFirst sep cs with _ | ⟨x, y⟩
      · rw [hr] at h; simp at h
      · rw [hr] at h
        simp at h
        obtain ⟨hx, hy⟩ := h
        obtain ⟨hns, heq⟩ := ih hr
        subst hx; subst hy
        refine ⟨?_, by simp [heq]⟩
        intro hmem
        rcases List.mem_cons.1 hmem with h1 | h2
        · exact hc h1.symm
        · exact hns h2

/-- Encoding then parsing one chunk round-trips. -/
theorem parsePair_encodePart {k v : String} (hk : '=' ∉ k.data)
    (hv : v.data ≠ []) : parsePair (encodePart k v) = some (k, v) := by
  unfold parsePair encodePart
  rw [splitFirst_append hk v.data]
  simp [List.isEmpty_iff, hv]

/-- What a successful `parsePair` tells about its chunk. -/
theorem parsePair_eq_some {chunk : List Char} {k v : String}
    (h : parsePair chunk = some (k, v)) :
    chunk = k.data ++ '=' :: v.data ∧ '=' ∉ k.data ∧ v.data ≠ [] := by
  unfold parsePair at h
  rcases hs : splitFirst '=' chunk with _ | ⟨a, b⟩
  · rw [hs] at h; simp at h
  · rw [hs] at h
    by_cases hb : b.isEmpty
    · simp [hb] at h
    · simp [hb] at h
      obtain ⟨hk, hv⟩ := h
      obtain ⟨hns, heq⟩ := splitFirst_eq_some hs
      subst hk; subst hv
      exact ⟨heq, hns, fun hnil => hb (List.isEmpty_iff.2 hnil)⟩

/-- Chunks produced by `splitOn` never contain the separator. -/
theorem not_mem_of_mem_splitOn {sep : Char} :
    ∀ {l p : List Char}, p ∈ l.splitOn sep → sep ∉ p := by
  intro l
  induction l with
  | nil =>
    intro p hp
    simp [List.splitOn, List.splitOnP_nil] at hp
    simp [hp]
  | cons c cs ih =>
    intro p hp
    by_cases hc : c = sep
    · rw [List.splitOn, List.splitOnP_cons] at hp
      simp [hc] at hp
      rcases hp with hp | hp
      · simp [hp]
      · exact ih hp
    · rw [List.splitOn, List.splitOnP_cons] at hp
      simp [hc] at hp
      rcases he : cs.splitOnP (· == sep) with _ | ⟨hd, tl⟩
      · exact absurd he (List.splitOnP_ne_nil _ cs)
      · rw [he] at hp
        simp [List.modifyHead] at hp
        rcases hp with hp | hp
        · subst hp
          intro hmem
          rcases List.mem_cons.1 hmem with h1 | h2
          · exact hc h1.symm
          · exact ih (p := hd) (by rw [List.splitOn, he]; exact List.mem_cons_self hd tl) h2
        · exact ih (by rw [List.splitOn, he]; exact List.mem_cons_of_mem hd hp)

/-- Every pair `parse_qsl` yields has a plain key and a plain value. -/
theorem parse_qsl_wf {q : String} {k v : String}
    (h : (k, v) ∈ parse_qsl q) : plainKeyStr k ∧ plainValStr v := by
  unfold parse_qsl at h
  rcases List.mem_filterMap.1 h with ⟨chunk, hchunk, hpp⟩
  obtain ⟨heq, hke, hvn⟩ := parsePair_eq_some hpp
  have hamp : '&' ∉ chunk := not_mem_of_mem_splitOn hchunk
  rw [heq] at hamp
  simp only [List.mem_append, List.mem_cons, not_or] at hamp
  refine ⟨⟨fun hm => hamp.1 hm, hke⟩, hvn, fun hm => hamp.2.2 hm⟩

/-- Decimal digit characters are digits. -/
theorem digitChar_isDigit {n : Nat} (h : n < 10) :
    (Nat.digitChar n).isDigit = true := by
  interval_cases n <;> decide

/-- All characters `Nat.toDigitsCore` accumulates in base 10 are digits. -/
theorem toDigitsCore_digits :
    ∀ (fuel n : Nat) (acc : List Char), (∀ c ∈ acc, c.isDigit = true) →
      ∀ c ∈ Nat.toDigitsCore 10 fuel n acc, c.isDigit = true := by
  intro fuel
  induction fuel with
  | zero =>
    intro n acc hacc c hc
    rw [Nat.toDigitsCore] at hc
    exact hacc c hc
  | succ f ih =>
    intro n acc hacc c hc
    rw [Nat.toDigitsCore] at hc
    by_cases h0 : n / 10 = 0
    · simp only [h0, if_pos] at hc
      rcases List.mem_cons.1 hc with h1 | h2
      · subst h1; exact digitChar_isDigit (Nat.mod_lt _ (by decide))
      · exact hacc _ h2
    · simp only [h0, if_neg, if_false] at hc
      refine ih _ _ ?_ _ hc
      intro x hx
      rcases List.mem_cons.1 hx with h1 | h2
      · subst h1; exact digitChar_isDigit (Nat.mod_lt _ (by decide))
      · exact hacc _ h2

/-- Fuelled `Nat.toDigitsCore` never returns an empty list. -/
theorem toDigitsCore_ne_nil :
    ∀ (fuel n : Nat) (acc : List Char), acc ≠ [] ∨ fuel ≠ 0 →
      Nat.toDigitsCore 10 fuel n acc ≠ [] := by
  intro fuel
  induction fuel with
  | zero =>
    intro n acc h
    rw [Nat.toDigitsCore]
    exact h.elim id (fun hf => absurd rfl hf)
  | succ f ih =>
    intro n acc _
    rw [Nat.toDigitsCore]
    by_cases h0 : n / 10 = 0
    · simp only [h0, if_pos]
      exact List.cons_ne_nil _ _
    · simp only [h0, if_neg, if_false]
      exact ih _ _ (Or.inl (List.cons_ne_nil _ _))

/-- Decimal `Nat.repr` is a non-empty all-digit string. -/
theorem natRepr_digits (n : Nat) :
    (Nat.repr n).data ≠ [] ∧ ∀ c ∈ (Nat.repr n).data, c.isDigit = true := by
  have hdata : (Nat.repr n).data = Nat.toDigitsCore 10 (n + 1) n [] := rfl
  rw [hdata]
  exact ⟨toDigitsCore_ne_nil _ _ _ (Or.inr (Nat.succ_ne_zero n)),
    toDigitsCore_digits _ _ _ (by intro c hc; cases hc)⟩

/-- Rendering `str(n)` for an integer gives a plain query-string value. -/
theorem toString_int_plain (n : Int) : plainValStr (toString n) := by
  have ht : toString n = Int.repr n := rfl
  rw [ht]
  cases n with
  | ofNat m =>
    have h := natRepr_digits m
    refine ⟨h.1, fun hm => ?_⟩
    have := h.2 '&' hm
    simp at this
  | negSucc m =>
    have h := natRepr_digits (m + 1)
    have hdata : (Int.repr (Int.negSucc m)).data =
        '-' :: (Nat.repr (m + 1)).data := by
      show (("-" : String) ++ Nat.repr (m + 1)).data = _
      rw [String.data_append]
      rfl
    constructor
    · rw [hdata]; exact List.cons_ne_nil _ _
    · rw [hdata]
      intro hm
      rcases List.mem_cons.1 hm with h1 | h2
      · cases h1
      · have := h.2 '&' h2
        simp at this

/-- The chunks of one dict entry are the encodings of its rendered
values. -/
theorem qvalParts_eq (kv : String × QVal) :
    qvalParts kv = (qvalVals kv.2).map (encodePart kv.1) := by
  rcases kv with ⟨k, v⟩
  cases v <;> simp [qvalParts, qvalVals]

/-- Parsing the encoded chunks of one key recovers its pairs. -/
theorem filterMap_parsePair_map {k : String} (hk : '=' ∉ k.data)
    {xs : List String} (hxs : ∀ x ∈ xs, x.data ≠ []) :
    (xs.map (encodePart k)).filterMap parsePair =
      xs.map (fun x => (k, x)) := by
  induction xs with
  | nil => rfl
  | cons x rest ih =>
    simp only [List.map_cons, List.filterMap_cons,
      parsePair_encodePart hk (hxs x (List.mem_cons_self x rest))]
    rw [ih (fun y hy => hxs y (List.mem_cons_of_mem x hy))]

/-- Parsing all encoded chunks of a well-formed dict recovers its pairs. -/
theorem filterMap_parsePair_flat (d : QDict)
    (hwf : ∀ kv ∈ d, plainKeyStr kv.1 ∧ plainQVal kv.2) :
    (d.flatMap qvalParts).filterMap parsePair = flatPairs d := by
  induction d with
  | nil => rfl
  | cons kv rest ih =>
    have hkv := hwf kv (List.mem_cons_self kv rest)
    rw [List.flatMap_cons, List.filterMap_append, qvalParts_eq,
      filterMap_parsePair_map hkv.1.2 (fun x hx => (hkv.2 x hx).1)]
    have htail := ih (fun kv' hkv' => hwf kv' (List.mem_cons_of_mem kv hkv'))
    rw [htail]
    rfl

/-- Decoding the encoding of a well-formed query dict yields exactly the
dict's pairs. -/
theorem parse_qsl_urlencode (d : QDict)
    (hwf : ∀ kv ∈ d, plainKeyStr kv.1 ∧ plainQVal kv.2) :
    parse_qsl (urlencode d) = flatPairs d := by
  unfold parse_qsl
  have hd : (urlencode d).data =
      List.intercalate ['&'] (d.flatMap qvalParts) := rfl
  rw [hd]
  by_cases hnil : d.flatMap qvalParts = []
  · rw [hnil]
    have h2 : ((List.intercalate ['&'] ([] : List (List Char))).splitOn
        '&').filterMap parsePair = [] := rfl
    rw [h2]
    symm
    rw [flatPairs, List.flatMap_eq_nil_iff]
    intro kv hkv
    have hkvnil := List.flatMap_eq_nil_iff.1 hnil kv hkv
    rw [qvalParts_eq, List.map_eq_nil_iff] at hkvnil
    rw [hkvnil, List.map_nil]
  · have hno : ∀ p ∈ d.flatMap qvalParts, '&' ∉ p := by
      intro p hp
      rcases List.mem_flatMap.1 hp with ⟨kv, hkv, hpp⟩
      rw [qvalParts_eq] at hpp
      rcases List.mem_map.1 hpp with ⟨x, hx, hex⟩
      subst hex
      obtain ⟨hkey, hvals⟩ := hwf kv hkv
      have hxv := hvals x hx
      intro hmem
      rcases List.mem_append.1 hmem with h1 | h2
      · exact hkey.1 h1
      · rcases List.mem_cons.1 h2 with h3 | h4
        · exact absurd h3 (by decide)
        · exact hxv.2 h4
    rw [List.splitOn_intercalate _ '&' hno hnil]
    exact filterMap_parsePair_flat d hwf

/-- Lookup distributes over concatenated dicts. -/
theorem lookupKey_append {α : Type} (d₁ d₂ : List (String × α)) (key : String) :
    lookupKey (d₁ ++ d₂) key = (lookupKey d₁ key).or (lookupKey d₂ key) := by
  induction d₁ with
  | nil => simp [lookupKey]
  | cons kv rest ih =>
    rcases kv with ⟨a, b⟩
    by_cases h : a = key <;> simp [lookupKey, h, ih]

/-- A key outside the dict's key list looks up to nothing. -/
theorem lookupKey_eq_none {α : Type} {d : List (String × α)} {key : String}
    (h : key ∉ d.map Prod.fst) : lookupKey d key = none := by
  induction d with
  | nil => rfl
  | cons kv rest ih =>
    rcases kv with ⟨a, b⟩
    simp only [List.map_cons, List.mem_cons, not_or] at h
    have ha : a ≠ key := fun hh => h.1 hh.symm
    simp [lookupKey, ha, ih h.2]

/-- A successful lookup exhibits a member entry. -/
theorem lookupKey_mem {α : Type} {d : List (String × α)} {key : String}
    {v : α} (h : lookupKey d key = some v) : (key, v) ∈ d := by
  induction d with
  | nil => cases h
  | cons kv rest ih =>
    rcases kv with ⟨a, b⟩
    by_cases ha : a = key
    · subst ha
      simp [lookupKey] at h
      subst h
      exact List.mem_cons_self _ _
    · simp [lookupKey, ha] at h
      exact List.mem_cons_of_mem _ (ih h)

/-- Unfolding `replaceKey` over a head entry. -/
theorem replaceKey_cons {α : Type} (a : String) (b : α)
    (rest : List (String × α)) (k : String) (v : α) :
    replaceKey ((a, b) :: rest) k v =
      (if a = k then (k, v) else (a, b)) :: replaceKey rest k v := by
  simp only [replaceKey, List.map_cons]

/-- Replacing one key leaves other lookups unchanged. -/
theorem replaceKey_lookup_ne {α : Type} (d : List (String × α))
    {k key : String} (v : α) (hne : k ≠ key) :
    lookupKey (replaceKey d k v) key = lookupKey d key := by
  induction d with
  | nil => rfl
  | cons kv rest ih =>
    rcases kv with ⟨a, b⟩
    rw [replaceKey_cons]
    by_cases ha : a = k
    · subst ha
      rw [if_pos rfl]
      simp [lookupKey, hne, ih]
    · rw [if_neg ha]
      simp [lookupKey, ih]

/-- Replacing a present key makes its lookup the new value. -/
theorem replaceKey_lookup_self {α : Type} {d : List (String × α)}
    {k : String} {w : α} (v : α) (h : lookupKey d k = some w) :
    lookupKey (replaceKey d k v) k = some v := by
  induction d with
  | nil => cases h
  | cons kv rest ih =>
    rcases kv with ⟨a, b⟩
    rw [replaceKey_cons]
    by_cases ha : a = k
    · subst ha
      rw [if_pos rfl]
      simp [lookupKey]
    · rw [if_neg ha]
      have h' : lookupKey rest k = some w := by
        simpa [lookupKey, ha] using h
      simp [lookupKey, ha, ih h']

/-- Updating one key makes it look up to the new value and leaves
every other lookup unchanged. -/
theorem lookupKey_updateOne (d : QDict) (k key : String) (v : QVal) :
    lookupKey (updateOne d k v) key =
      if k = key then some v else lookupKey d key := by
  unfold updateOne
  rcases hl : lookupKey d k with _ | w
  · rw [lookupKey_append]
    by_cases hk : k = key
    · subst hk
      simp [lookupKey, hl]
    · simp [lookupKey, hk]
  · by_cases hk : k = key
    · subst hk
      simp [replaceKey_lookup_self v hl]
    · simp [replaceKey_lookup_ne d v hk, hk]

/-- Keys untouched by `dict.update` keep their previous lookup. -/
theorem dictUpdate_lookup_none {ps : QDict} {key : String}
    (hnone : lookupKey ps key = none) :
    ∀ d : QDict, lookupKey (dictUpdate d ps) key = lookupKey d key := by
  induction ps with
  | nil => intro d; rfl
  | cons kv rest ih =>
    intro d
    rcases kv with ⟨k₀, v₀⟩
    by_cases hk : k₀ = key
    · simp [lookupKey, hk] at hnone
    · simp only [lookupKey, hk, if_neg] at hnone
      have hstep : dictUpdate d ((k₀, v₀) :: rest) =
          dictUpdate (updateOne d k₀ v₀) rest := rfl
      rw [hstep, ih hnone, lookupKey_updateOne]
      simp [hk]

/-- Keys supplied by `dict.update` look up to the supplied value
afterwards (the params dict has no duplicate keys). -/
theorem dictUpdate_lookup_some {ps : QDict} {key : String} {v : QVal}
    (hnd : (ps.map Prod.fst).Nodup) (hsome : lookupKey ps key = some v) :
    ∀ d : QDict, lookupKey (dictUpdate d ps) key = some v := by
  induction ps with
  | nil => cases hsome
  | cons kv rest ih =>
    intro d
    rcases kv with ⟨k₀, v₀⟩
    have hstep : dictUpdate d ((k₀, v₀) :: rest) =
        dictUpdate (updateOne d k₀ v₀) rest := rfl
    rw [hstep]
    by_cases hk : k₀ = key
    · subst hk
      simp only [lookupKey, if_pos rfl] at hsome
      obtain rfl : v₀ = v := by injection hsome
      simp only [List.map_cons, List.nodup_cons] at hnd
      have hrest : lookupKey rest k₀ = none :=
        lookupKey_eq_none (by simpa using hnd.1)
      rw [dictUpdate_lookup_none hrest, lookupKey_updateOne]
      simp
    · simp only [lookupKey, hk, if_neg] at hsome
      simp only [List.map_cons, List.nodup_cons] at hnd
      exact ih hnd.2 hsome _

/-- Grouping steps of `parse_qs` never produce an empty dict. -/
theorem qslAdd_ne_nil (d : QDict) (k v : String) : qslAdd d k v ≠ [] := by
  unfold qslAdd
  rcases hl : lookupKey d k with _ | w
  · simp
  · rcases d with _ | ⟨kv, rest⟩
    · cases hl
    · cases w <;> simp [replaceKey]

/-- Folding `parse_qs` grouping steps preserves non-emptiness. -/
theorem foldl_qslAdd_ne_nil :
    ∀ (l : List (String × String)) (d : QDict), d ≠ [] →
      l.foldl (fun d kv => qslAdd d kv.1 kv.2) d ≠ [] := by
  intro l
  induction l with
  | nil => intro d hd; exact hd
  | cons kv rest ih =>
    intro d _
    rw [List.foldl_cons]
    exact ih _ (qslAdd_ne_nil d kv.1 kv.2)

/-- A non-empty pair list groups to a non-empty dict. -/
theorem qslToDict_ne_nil {l : List (String × String)} (hl : l ≠ []) :
    qslToDict l ≠ [] := by
  rcases l with _ | ⟨kv, rest⟩
  · exact absurd rfl hl
  · unfold qslToDict
    rw [List.foldl_cons]
    exact foldl_qslAdd_ne_nil rest _ (qslAdd_ne_nil [] kv.1 kv.2)

/-- Updating one key never empties a dict. -/
theorem updateOne_ne_nil (d : QDict) (k : String) (v : QVal) :
    updateOne d k v ≠ [] := by
  unfold updateOne
  rcases hl : lookupKey d k with _ | w
  · simp
  · rcases d with _ | ⟨kv, rest⟩
    · cases hl
    · simp [replaceKey]

/-- Updating a dict preserves non-emptiness. -/
theorem dictUpdate_ne_nil (ps : QDict) :
    ∀ {d : QDict}, d ≠ [] → dictUpdate d ps ≠ [] := by
  induction ps with
  | nil => intro d hd; exact hd
  | cons kv rest ih =>
    intro d _
    have hstep : dictUpdate d (kv :: rest) =
        dictUpdate (updateOne d kv.1 kv.2) rest := rfl
    rw [hstep]
    exact ih (updateOne_ne_nil d kv.1 kv.2)

/-- Replacing a key with a well-formed value keeps the dict well-formed. -/
theorem replaceKey_wf {d : QDict} {k : String} {nv : QVal}
    (hd : wfParams d) (hk : plainKeyStr k) (hnv : plainQVal nv)
    (hne : qvalVals nv ≠ []) : wfParams (replaceKey d k nv) := by
  intro kv hkv
  unfold replaceKey at hkv
  rcases List.mem_map.1 hkv with ⟨kv₀, h₀, heq⟩
  by_cases hc : kv₀.1 = k
  · rw [if_pos hc] at heq
    subst heq
    exact ⟨hk, hnv, hne⟩
  · rw [if_neg hc] at heq
    subst heq
    exact hd kv₀ h₀

/-- A `parse_qs` grouping step keeps the dict well-formed. -/
theorem qslAdd_wf {d : QDict} (hd : wfParams d) {k v : String}
    (hk : plainKeyStr k) (hv : plainValStr v) : wfParams (qslAdd d k v) := by
  unfold qslAdd
  rcases hl : lookupKey d k with _ | w
  · intro kv hkv
    rcases List.mem_append.1 hkv with h | h
    · exact hd kv h
    · simp only [List.mem_singleton] at h
      subst h
      refine ⟨hk, ?_, by simp [qvalVals]⟩
      intro x hx
      simp [qvalVals] at hx
      subst hx
      exact hv
  · have hw := hd _ (lookupKey_mem hl)
    cases w with
    | strs xs =>
      refine replaceKey_wf hd hk ?_ (by simp [qvalVals])
      intro x hx
      simp only [qvalVals, List.mem_append, List.mem_singleton] at hx
      rcases hx with hx | hx
      · exact hw.2.1 x hx
      · subst hx; exact hv
    | intV m =>
      refine replaceKey_wf hd hk ?_ (by simp [qvalVals])
      intro x hx
      simp only [qvalVals, List.mem_singleton] at hx
      subst hx; exact hv

/-- Updating one key with a well-formed value keeps the dict well-formed. -/
theorem updateOne_wf {d : QDict} (hd : wfParams d) {k : String} {v : QVal}
    (hk : plainKeyStr k) (hv : plainQVal v) (hne : qvalVals v ≠ []) :
    wfParams (updateOne d k v) := by
  unfold updateOne
  rcases lookupKey d k with _ | w
  · intro kv hkv
    rcases List.mem_append.1 hkv with h | h
    · exact hd kv h
    · simp only [List.mem_singleton] at h
      subst h
      exact ⟨hk, hv, hne⟩
  · exact replaceKey_wf hd hk hv hne

/-- Updating with a well-formed params dict keeps well-formedness. -/
theorem dictUpdate_wf (ps : QDict) (hps : wfParams ps) :
    ∀ {d : QDict}, wfParams d → wfParams (dictUpdate d ps) := by
  induction ps with
  | nil => intro d hd; exact hd
  | cons kv rest ih =>
    intro d hd
    have hstep : dictUpdate d (kv :: rest) =
        dictUpdate (updateOne d kv.1 kv.2) rest := rfl
    rw [hstep]
    have hkv := hps kv (List.mem_cons_self kv rest)
    exact ih (fun kv' h => hps kv' (List.mem_cons_of_mem kv h))
      (updateOne_wf hd hkv.1 hkv.2.1 hkv.2.2)

/-- Grouping well-formed pairs yields a well-formed dict. -/
theorem qslToDict_wf (l : List (String × String))
    (hl : ∀ kv ∈ l, plainKeyStr kv.1 ∧ plainValStr kv.2) :
    wfParams (qslToDict l) := by
  suffices h : ∀ (l' : List (String × String)) (d : QDict), wfParams d →
      (∀ kv ∈ l', plainKeyStr kv.1 ∧ plainValStr kv.2) →
      wfParams (l'.foldl (fun d kv => qslAdd d kv.1 kv.2) d) by
    exact h l [] (fun kv hkv => by cases hkv) hl
  intro l'
  induction l' with
  | nil => intro d hd _; exact hd
  | cons kv rest ih =>
    intro d hd hl'
    rw [List.foldl_cons]
    have hkv := hl' kv (List.mem_cons_self kv rest)
    exact ih _ (qslAdd_wf hd hkv.1 hkv.2)
      (fun kv' h => hl' kv' (List.mem_cons_of_mem kv h))

/-- Parsing a path-plus-query URL separates path and query. -/
theorem urlparseQ_concat (path q : String) (h : '?' ∉ path.data) :
    urlparseQ (path ++ "?" ++ q) = (path, q) := by
  unfold urlparseQ
  have hdata : (path ++ "?" ++ q).data = path.data ++ '?' :: q.data := by
    simp [String.data_append]
  rw [hdata, splitFirst_append h]

/-- Joining a non-empty first chunk is non-empty. -/
theorem intercalate_ne_nil {p : List Char} (ps : List (List Char))
    (hp : p ≠ []) : List.intercalate ['&'] (p :: ps) ≠ [] := by
  cases ps with
  | nil => simpa [List.intercalate, List.intersperse]
  | cons q rest =>
    simp [List.intercalate, List.intersperse, hp]

/-- Encoding a well-formed non-empty dict yields a non-empty query
string. -/
theorem urlencode_ne_empty {d : QDict} (hne : d ≠ []) (hwf : wfParams d) :
    urlencode d ≠ "" := by
  rcases d with _ | ⟨kv, rest⟩
  · exact absurd rfl hne
  · have hk := hwf kv (List.mem_cons_self kv rest)
    rcases hv : qvalVals kv.2 with _ | ⟨x, xs⟩
    · exact absurd hv hk.2.2
    · intro hemp
      have henc : encodePart kv.1 x ≠ [] := by simp [encodePart]
      have h1 : (kv :: rest).flatMap qvalParts =
          encodePart kv.1 x ::
            (xs.map (encodePart kv.1) ++ rest.flatMap qvalParts) := by
        rw [List.flatMap_cons, qvalParts_eq, hv]
        simp
      have h2 : (urlencode (kv :: rest)).data =
          List.intercalate ['&'] (encodePart kv.1 x ::
            (xs.map (encodePart kv.1) ++ rest.flatMap qvalParts)) := by
        show List.intercalate ['&'] ((kv :: rest).flatMap qvalParts) = _
        rw [h1]
      rw [hemp] at h2
      exact intercalate_ne_nil _ henc h2.symm

/-- C7 (amended): merging preserves recognised (non-blank) pre-existing
parameters and adds the new ones, overriding only on key collision. -/
theorem add_querystring_merges (path q : String) (params : QDict)
    (hpath : '?' ∉ path.data) (hq : parse_qsl q ≠ [])
    (hwf : wfParams params) (hnd : (params.map Prod.fst).Nodup) :
    add_querystring (path ++ "?" ++ q) params =
        path ++ "?" ++
          urlencode (dictUpdate (qslToDict (parse_qsl q)) params) ∧
      parse_qsl (urlencode (dictUpdate (qslToDict (parse_qsl q)) params)) =
        flatPairs (dictUpdate (qslToDict (parse_qsl q)) params) ∧
      (∀ k, lookupKey params k = none →
        lookupKey (dictUpdate (qslToDict (parse_qsl q)) params) k =
          lookupKey (qslToDict (parse_qsl q)) k) ∧
      (∀ k v, lookupKey params k = some v →
        lookupKey (dictUpdate (qslToDict (parse_qsl q)) params) k =
          some v) := by
  have hqwf : wfParams (qslToDict (parse_qsl q)) :=
    qslToDict_wf _ (fun kv hkv => parse_qsl_wf hkv)
  have hmwf : wfParams (dictUpdate (qslToDict (parse_qsl q)) params) :=
    dictUpdate_wf params hwf hqwf
  have hmne : dictUpdate (qslToDict (parse_qsl q)) params ≠ [] :=
    dictUpdate_ne_nil params (qslToDict_ne_nil hq)
  have hue : urlencode (dictUpdate (qslToDict (parse_qsl q)) params) ≠ "" :=
    urlencode_ne_empty hmne hmwf
  refine ⟨?_, ?_, ?_, ?_⟩
  · show urlunparseQ (urlparseQ (path ++ "?" ++ q)).1
      (urlencode (dictUpdate
        (qslToDict (parse_qsl (urlparseQ (path ++ "?" ++ q)).2)) params)) = _
    rw [urlparseQ_concat path q hpath]
    show urlunparseQ path _ = _
    unfold urlunparseQ
    rw [if_neg hue]
  · exact parse_qsl_urlencode _
      (fun kv hkv => ⟨(hmwf kv hkv).1, (hmwf kv hkv).2.1⟩)
  · intro k hk
    exact dictUpdate_lookup_none hk _
  · intro k v hk
    exact dictUpdate_lookup_some hnd hk _

/-- C7 counterexample: a pre-existing blank-valued parameter
(`offset=`) is silently dropped by the merge, so the output does not
contain it. -/
theorem add_querystring_drops_blank_param :
    add_querystring "/variables?offset=" [("limit", QVal.intV 10)] =
        "/variables?limit=10" ∧
      lookupKey (parse_qsl (urlparseQ
          (add_querystring "/variables?offset="
            [("limit", QVal.intV 10)])).2) "offset" = none := by
  decide

/-- Witness for `add_querystring_merges` at the spec's example
`addQueryParams("/variables?offset=5", {limit: 10})`, together with the
concrete merged output. -/
theorem add_querystring_merges_witness :
    ('?' ∉ ("/variables" : String).data ∧ parse_qsl "offset=5" ≠ [] ∧
        wfParams [("limit", QVal.intV 10)] ∧
        (([("limit", QVal.intV 10)] : QDict).map Prod.fst).Nodup) ∧
      add_querystring ("/variables" ++ "?" ++ "offset=5")
          [("limit", QVal.intV 10)] =
        "/variables" ++ "?" ++
          urlencode (dictUpdate (qslToDict (parse_qsl "offset=5"))
            [("limit", QVal.intV 10)]) ∧
      add_querystring "/variables?offset=5" [("limit", QVal.intV 10)] =
        "/variables?offset=5&limit=10" :=
  ⟨⟨by decide, by decide,
      by simp only [wfParams, plainQVal, plainValStr, plainKeyStr, qvalVals]; decide,
      by decide⟩,
    (add_querystring_merges "/variables" "offset=5"
        [("limit", QVal.intV 10)] (by decide) (by decide)
        (by simp only [wfParams, plainQVal, plainValStr, plainKeyStr, qvalVals]; decide)
        (by decide)).1,
    by decide⟩

/-- C1: whenever the remote attempt fails (non-200 status, timeout, network
error, or JSON parse error on a 200), `get_variable` returns the cache-read
result for the name — the cached value, or Python `None` when absent (or
when the cache engine itself fails) — and raises nothing. -/
theorem get_variable_falls_back_on_failure
    (e : Envbee) (out : TransportOutcome) (writeFail readFail : Bool)
    (st : CacheState) (name : String)
    (hfail :
      (∃ s text b, out = TransportOutcome.response s text b ∧ s ≠ 200) ∨
        out = TransportOutcome.timeout ∨ out = TransportOutcome.netError ∨
        (∃ text, out = TransportOutcome.response 200 text none)) :
    (e.get_variable out writeFail readFail st name).ret =
      (if readFail then JsonVal.null
       else (lookupCache st (JsonVal.str name)).getD JsonVal.null) := by
  rcases hfail with ⟨s, text, b, rfl, hs⟩ | rfl | rfl | ⟨text, rfl⟩
  · simp [Envbee.get_variable, send_request, get_variable_from_cache, hs]
  all_goals simp [Envbee.get_variable, send_request, get_variable_from_cache]

/-- Witness for `get_variable_falls_back_on_failure`: a timeout with a
populated cache returns the cached value. -/
theorem get_variable_falls_back_on_failure_witness :
    ((∃ s text b, TransportOutcome.timeout =
          TransportOutcome.response s text b ∧ s ≠ 200) ∨
        TransportOutcome.timeout = TransportOutcome.timeout ∨
        TransportOutcome.timeout = TransportOutcome.netError ∨
        (∃ text, TransportOutcome.timeout =
          TransportOutcome.response 200 text none)) ∧
      ((mkEnvbee "k" [] none).get_variable TransportOutcome.timeout false
          false [(JsonVal.str "a", JsonVal.str "cached-x")] "a").ret =
        (if false then JsonVal.null
         else (lookupCache [(JsonVal.str "a", JsonVal.str "cached-x")]
            (JsonVal.str "a")).getD JsonVal.null) :=
  ⟨Or.inr (Or.inl rfl),
    get_variable_falls_back_on_failure _ _ false false _ "a"
      (Or.inr (Or.inl rfl))⟩

/-- C6: an HTTP 200 whose body is `{"value": x}` makes `get_variable`
return `x` after exactly one cache write of `(name, x)`. -/
theorem get_variable_success_caches_and_returns
    (e : Envbee) (text : String) (x : JsonVal) (readFail : Bool)
    (st : CacheState) (name : String) :
    ((e.get_variable (TransportOutcome.response 200 text
        (some (JsonVal.obj [("value", x)]))) false readFail st name).ret =
          x ∧
      (e.get_variable (TransportOutcome.response 200 text
        (some (JsonVal.obj [("value", x)]))) false readFail st name).events =
          [CacheEvent.setE (JsonVal.str name) x] ∧
      (e.get_variable (TransportOutcome.response 200 text
        (some (JsonVal.obj [("value", x)]))) false readFail st name).cache =
          cacheSet st (JsonVal.str name) x) :=
  ⟨rfl, rfl, rfl⟩

/-- C10: an HTTP 200 whose JSON object body has no `value` field makes
`get_variable` cache `(name, None)` and return `None`, with no cache
read. -/
theorem get_variable_missing_value_field
    (e : Envbee) (text : String) (fs : List (String × JsonVal))
    (readFail : Bool) (st : CacheState) (name : String)
    (hmiss : lookupKey fs "value" = none) :
    ((e.get_variable (TransportOutcome.response 200 text
        (some (JsonVal.obj fs))) false readFail st name).ret =
          JsonVal.null ∧
      (e.get_variable (TransportOutcome.response 200 text
        (some (JsonVal.obj fs))) false readFail st name).events =
          [CacheEvent.setE (JsonVal.str name) JsonVal.null] ∧
      (e.get_variable (TransportOutcome.response 200 text
        (some (JsonVal.obj fs))) false readFail st name).cache =
          cacheSet st (JsonVal.str name) JsonVal.null) := by
  have hget : JsonVal.getOpt (JsonVal.obj fs) "value" = some JsonVal.null := by
    simp [JsonVal.getOpt, hmiss]
  refine ⟨?_, ?_, ?_⟩ <;>
    simp [Envbee.get_variable, send_request, hget, cache_variable]

/-- Witness for `get_variable_missing_value_field` on a body with only an
unrelated field. -/
theorem get_variable_missing_value_field_witness :
    lookupKey [("other", JsonVal.num 1)] "value" = none ∧
      ((mkEnvbee "k" [] none).get_variable (TransportOutcome.response 200 ""
        (some (JsonVal.obj [("other", JsonVal.num 1)]))) false false []
        "n").ret = JsonVal.null :=
  ⟨rfl,
    (get_variable_missing_value_field (mkEnvbee "k" [] none) ""
      [("other", JsonVal.num 1)] false [] "n" rfl).1⟩

/-- C4 (amended): `_send_request` raises `RequestError` (carrying the
status) exactly for received non-200 responses, `RequestTimeoutError`
exactly for transport timeouts, and returns the parsed JSON body exactly
for 200 responses whose body parses; a 200 whose body does not parse
re-raises the parse error unchanged. -/
theorem send_request_classification (url : String) (tmo : Nat)
    (out : TransportOutcome) :
    (∀ s text b, out = TransportOutcome.response s text b → s ≠ 200 →
      send_request url tmo out =
        Except.error (SendError.requestError s ("Failed request: " ++ text))) ∧
    (∀ s m, send_request url tmo out =
        Except.error (SendError.requestError s m) →
      ∃ text b, out = TransportOutcome.response s text b ∧ s ≠ 200) ∧
    (out = TransportOutcome.timeout ↔
      ∃ m, send_request url tmo out =
        Except.error (SendError.requestTimeout m)) ∧
    (∀ text j, out = TransportOutcome.response 200 text (some j) →
      send_request url tmo out = Except.ok j) ∧
    (∀ j, send_request url tmo out = Except.ok j →
      ∃ text, out = TransportOutcome.response 200 text (some j)) := by
  refine ⟨?_, ?_, ⟨?_, ?_⟩, ?_, ?_⟩
  · rintro s text b rfl hs
    simp [send_request, hs]
  · intro s m h
    cases out with
    | response s' text' b' =>
      by_cases h200 : s' = 200
      · subst h200
        cases b' with
        | none => simp [send_request] at h
        | some j => simp [send_request] at h
      · simp [send_request, h200] at h
        exact ⟨text', b', by rw [h.1], by rw [← h.1]; exact h200⟩
    | timeout => simp [send_request] at h
    | netError => simp [send_request] at h
  · rintro rfl
    exact ⟨_, rfl⟩
  · rintro ⟨m, hm⟩
    cases out with
    | response s' text' b' =>
      by_cases h200 : s' = 200
      · subst h200
        cases b' with
        | none => simp [send_request] at hm
        | some j => simp [send_request] at hm
      · simp [send_request, h200] at hm
    | timeout => rfl
    | netError => simp [send_request] at hm
  · rintro text j rfl
    simp [send_request]
  · intro j h
    cases out with
    | response s' text' b' =>
      by_cases h200 : s' = 200
      · subst h200
        cases b' with
        | none => simp [send_request] at h
        | some j' =>
          simp [send_request] at h
          exact ⟨text', by rw [h]⟩
      · simp [send_request, h200] at h
    | timeout => simp [send_request] at h
    | netError => simp [send_request] at h

/-- C4 counterexample: a 200 response whose body fails to parse does not
return a parsed body — the parse error propagates as-is — refuting
"returns the parsed JSON body if and only if the status is 200". -/
theorem send_request_200_unparseable :
    send_request "https://api.envbee.dev/variables-values/n" 2
        (TransportOutcome.response 200 "" none) =
      Except.error SendError.unexpected := rfl

/-- Witness for `send_request_classification` on a 500 response. -/
theorem send_request_classification_witness :
    send_request "u" 2 (TransportOutcome.response 500 "boom" none) =
      Except.error (SendError.requestError 500 ("Failed request: " ++ "boom")) :=
  (send_request_classification "u" 2
    (TransportOutcome.response 500 "boom" none)).1 500 "boom" none rfl
    (by decide)

/-- C5 (code bug): when the remote attempt fails and the cache engine also
fails, `get_variables` returns Python `None` — not a list — despite its
declared `list[dict]` return type and the spec's "treat the cache as
empty". -/
theorem get_variables_cache_failure_returns_none :
    ((mkEnvbee "k" [] none).get_variables TransportOutcome.timeout
        (fun _ => false) true [(JsonVal.str "a", JsonVal.str "1")]
        none none).ret = JsonVal.null ∧
      JsonVal.null ≠ JsonVal.arr [] :=
  ⟨rfl, fun h => JsonVal.noConfusion h⟩

/-- When every fetched entry is a dict with `name` and `value`, the caching
loop completes and interacts with the cache only through writes. -/
theorem cache_entries_all_writes (writeFail : Nat → Bool) :
    ∀ (items : List JsonVal) (st : CacheState) (i : Nat),
      (∀ v ∈ items, (JsonVal.subscript v "name").isSome ∧
        (JsonVal.subscript v "value").isSome) →
      (cache_entries writeFail st i items).1 = true ∧
        ∀ ev ∈ (cache_entries writeFail st i items).2.2,
          ev.isWrite = true := by
  intro items
  induction items with
  | nil =>
    intro st i _
    exact ⟨rfl, fun ev hev => by cases hev⟩
  | cons v rest ih =>
    intro st i h
    have hv := h v (List.mem_cons_self v rest)
    rcases hn : JsonVal.subscript v "name" with _ | nm
    · rw [hn] at hv; simp at hv
    rcases hw : JsonVal.subscript v "value" with _ | vl
    · rw [hw] at hv; simp at hv
    have hrest := ih (cache_variable (writeFail i) st nm vl).1 (i + 1)
      (fun v' hv' => h v' (List.mem_cons_of_mem v hv'))
    constructor
    · show (cache_entries writeFail st i (v :: rest)).1 = true
      simp only [cache_entries, hn, hw]
      exact hrest.1
    · intro ev hev
      simp only [cache_entries, hn, hw] at hev
      rcases List.mem_append.1 hev with h1 | h1
      · simp only [cache_variable, List.mem_singleton] at h1
        subst h1
        rfl
      · exact hrest.2 ev h1

/-- C9 (amended): across both public operations, the cache is written only
on the success path (after the remote fetch returned), and — provided the
successful response body is well-formed — never read there; whenever the
remote fetch fails, the cache is only read, never written.  (A successful
fetch with a malformed body falls back to a cache read, possibly after
partial writes: see the counterexample.) -/
theorem cache_write_read_discipline :
    (∀ (e : Envbee) (out : TransportOutcome) (wf rf : Bool)
        (st : CacheState) (name : String) (err : SendError),
      send_request (e.base_url ++ ("/variables-values/" ++ name)) 2 out =
          Except.error err →
      ∀ ev ∈ (e.get_variable out wf rf st name).events,
        ev.isWrite = false) ∧
    (∀ (e : Envbee) (text : String) (fs : List (String × JsonVal))
        (wf rf : Bool) (st : CacheState) (name : String),
      ∀ ev ∈ (e.get_variable (TransportOutcome.response 200 text
          (some (JsonVal.obj fs))) wf rf st name).events,
        ev.isWrite = true) ∧
    (∀ (e : Envbee) (out : TransportOutcome) (wf : Nat → Bool) (rf : Bool)
        (st : CacheState) (offset limit : Option Int) (err : SendError),
      send_request (e.base_url ++ get_variables_url_path offset limit) 2
          out = Except.error err →
      ∀ ev ∈ (e.get_variables out wf rf st offset limit).events,
        ev.isWrite = false) ∧
    (∀ (e : Envbee) (text : String) (fs : List (String × JsonVal))
        (wf : Nat → Bool) (rf : Bool) (st : CacheState)
        (offset limit : Option Int) (items : List JsonVal),
      pyIter ((lookupKey fs "data").getD (JsonVal.arr [])) = some items →
      (∀ v ∈ items, (JsonVal.subscript v "name").isSome ∧
        (JsonVal.subscript v "value").isSome) →
      ∀ ev ∈ (e.get_variables (TransportOutcome.response 200 text
          (some (JsonVal.obj fs))) wf rf st offset limit).events,
        ev.isWrite = true) := by
  refine ⟨?_, ?_, ?_, ?_⟩
  · intro e out wf rf st name err h ev hev
    simp only [Envbee.get_variable, h] at hev
    simp only [List.mem_singleton] at hev
    subst hev
    rfl
  · intro e text fs wf rf st name ev hev
    simp only [Envbee.get_variable, send_request, if_pos,
      JsonVal.getOpt] at hev
    simp only [cache_variable, List.mem_singleton] at hev
    subst hev
    rfl
  · intro e out wf rf st offset limit err h ev hev
    simp only [Envbee.get_variables, h] at hev
    simp only [List.mem_singleton] at hev
    subst hev
    rfl
  · intro e text fs wf rf st offset limit items hit hgood ev hev
    have hloop := cache_entries_all_writes wf items st 0 hgood
    simp only [Envbee.get_variables, send_request, if_pos,
      JsonVal.getDefault, hit, hloop.1, if_true] at hev
    exact hloop.2 ev hev

/-- C9 counterexample: a successful fetch (HTTP 200, parseable body) whose
body is not an object makes `get_variable` read the cache, refuting "the
cache is read only after the remote fetch has failed". -/
theorem get_variable_reads_cache_after_ok_fetch :
    send_request ((mkEnvbee "k" [] none).base_url ++
        ("/variables-values/" ++ "n")) 2
        (TransportOutcome.response 200 "" (some (JsonVal.str "oops"))) =
      Except.ok (JsonVal.str "oops") ∧
      ((mkEnvbee "k" [] none).get_variable
          (TransportOutcome.response 200 "" (some (JsonVal.str "oops")))
          false false [] "n").events =
        [CacheEvent.getE (JsonVal.str "n")] :=
  ⟨rfl, rfl⟩

/-- Witness for `cache_write_read_discipline`: a network error performs no
cache write. -/
theorem cache_write_read_discipline_witness :
    CacheEvent.setE (JsonVal.str "n") (JsonVal.str "x") ∉
      ((mkEnvbee "k" [] none).get_variable TransportOutcome.netError
        false false [] "n").events :=
  fun hmem => by
    have h := cache_write_read_discipline.1 (mkEnvbee "k" [] none)
      TransportOutcome.netError false false [] "n" SendError.unexpected rfl
      (CacheEvent.setE (JsonVal.str "n") (JsonVal.str "x")) hmem
    cases h
